import Mathlib

/-!
Shallow embedding of the Raspimon core (src/raspimon.py, with
src/raspimon_tui.py noted where it differs): the bounded history store
(`collections.deque` with `maxlen`), the rate computation in
`DataStore.update`, the disk-device filter `safe_disk_counters_perdisk`,
the temperature reader `get_pi_temp`, and the `sparkline` renderer.

Modelling conventions: Python floats are modelled as `Rat` (all the
values involved are produced by finite arithmetic on counters),
Python ints as `Int`, glyph strings as `List Char`, dicts of per-device
counters as association lists with distinct keys, and the fallible
psutil / subprocess boundary as `Option`-valued inputs (`none` models
an exception or an absent value, exactly where the source wraps the
call in `try/except`).
-/

namespace Raspimon

/-- Configured refresh period, raspimon.py line 22: `REFRESH = 0.4`. -/
def REFRESH : Rat := 2/5

/-- History capacity, raspimon.py line 23: `HISTORY_LENGTH = 120`. -/
def HISTORY_LENGTH : Nat := 120

/-- Glyph ramp, raspimon.py line 50: `SPARK_CHARS = "▁▂▃▄▅▆▇█"`. -/
def SPARK_CHARS : List Char := ['▁', '▂', '▃', '▄', '▅', '▆', '▇', '█']

/-- Python `int()` applied to a float: truncation toward zero. -/
def pyInt (q : Rat) : Int := if 0 ≤ q then ⌊q⌋ else -⌊-q⌋

/-- Python `min()` over a list (the source only applies it to nonempty
lists; the `[]` case is an arbitrary default, never reached). -/
def pyMin : List Rat → Rat
  | [] => 0
  | [x] => x
  | x :: y :: ys => min x (pyMin (y :: ys))

/-- Python `max()` over a list (the `[]` case is never reached). -/
def pyMax : List Rat → Rat
  | [] => 0
  | [x] => x
  | x :: y :: ys => max x (pyMax (y :: ys))

/-- Python `range(0, stop, step)` for `step ≥ 1`, in closed form: the
indices `k * step` for `k < ⌈stop / step⌉`.  The source always calls it
with `step = max(1, ...) ≥ 1`, for which this closed form is exactly
the Python range. -/
def pyRange (stop step : Nat) : List Nat :=
  (List.range ((stop + step - 1) / step)).map (fun k => k * step)

/-- The `rng` local of `sparkline`, raspimon.py line 117:
`rng = mx - mn if mx != mn else 1.0`. -/
def sparkRng (values : List Rat) : Rat :=
  if pyMax values ≠ pyMin values then pyMax values - pyMin values else 1

/-- The glyph index of `sparkline`, raspimon.py line 122:
`idx = int(((v - mn) / rng) * (len(SPARK_CHARS)-1))`. -/
def sparkIdx (mn rng v : Rat) : Int :=
  pyInt ((v - mn) / rng * ((SPARK_CHARS.length - 1 : Nat) : Rat))

/-- The downsampling loop of `sparkline`, raspimon.py lines 115-124:
`mn`/`mx`/`rng`/`step` then `out.append(SPARK_CHARS[idx])` for
`i in range(0, len(values), step)`.  `List.getD` defaults never fire:
every produced index `i` satisfies `i < values.length` and every glyph
index lies in `[0, 7]` (proved below), matching Python's non-raising,
non-wrapping behaviour on these in-range accesses. -/
def rawGlyphs (values : List Rat) (width : Nat) : List Char :=
  let mn := pyMin values
  let rng := sparkRng values
  let step := max 1 (values.length / width)
  (pyRange values.length step).map (fun i =>
    SPARK_CHARS.getD (sparkIdx mn rng (values.getD i 0)).toNat ' ')

/-- The sparkline renderer, raspimon.py lines 110-127.  The final two
lines transcribe `s = s[-width:]` (keep the last `width` glyphs) and
`s.rjust(width)` (pad on the left with spaces up to `width`).
The raspimon_tui.py variant (lines 227-243) lacks the early return for
empty `values` but computes the same output: with no samples the loop
body never runs and `"".rjust(width)` is `width` spaces. -/
def sparkline (values : List Rat) (width : Nat) : List Char :=
  if width = 0 then []
  else if values = [] then List.replicate width ' '
  else
    let s := rawGlyphs values width
    let s := if width < s.length then s.drop (s.length - width) else s
    List.replicate (width - s.length) ' ' ++ s

/-- One `deque(..., maxlen=cap)` append: add at the right, evict from
the left when over capacity. -/
def dequeAppend (cap : Nat) (xs : List Rat) (v : Rat) : List Rat :=
  let ys := xs ++ [v]
  ys.drop (ys.length - cap)

/-- A freshly initialised metric series, raspimon.py line 156 etc.:
`deque([0.0]*history_len, maxlen=history_len)`. -/
def seriesInit (cap : Nat) : List Rat := List.replicate cap 0

/-- Append a whole sequence of samples, one `dequeAppend` at a time. -/
def appendAll (cap : Nat) (xs : List Rat) (vs : List Rat) : List Rat :=
  vs.foldl (dequeAppend cap) xs

/-- System-wide cumulative network counters (psutil.net_io_counters). -/
structure NetCounters where
  bytes_sent : Int
  bytes_recv : Int
deriving DecidableEq

/-- Cumulative per-device disk counters (the fields of a psutil
per-disk entry that the source reads). -/
structure DiskStats where
  read_bytes : Int
  write_bytes : Int
deriving DecidableEq

/-- A per-device disk snapshot: a dict from device name to counters,
modelled as an association list with distinct keys. -/
def DiskSnapshot : Type := List (String × DiskStats)

/-- Python `dict.get(dev)`: the first (unique) entry for `dev`. -/
def lookupStats : List (String × DiskStats) → String → Option DiskStats
  | [], _ => none
  | (d, s) :: rest, dev => if d = dev then some s else lookupStats rest dev

/-- The per-device delta accumulation of `DataStore.update`,
raspimon.py lines 199-209: for each device of the current snapshot
whose stats are also in the previous snapshot, add its read/write
deltas; devices with no previous entry are skipped (`.get` returns
`None`, which is falsy).  The dict iteration order is irrelevant to
the two integer sums, so it is modelled structurally on the list. -/
def diskDeltas (prev : List (String × DiskStats)) :
    List (String × DiskStats) → Int × Int
  | [] => (0, 0)
  | (dev, s) :: rest =>
    let acc := diskDeltas prev rest
    match lookupStats prev dev with
    | some p => (acc.1 + (s.read_bytes - p.read_bytes),
                 acc.2 + (s.write_bytes - p.write_bytes))
    | none => acc

/-- The disk rate computation of `DataStore.update`, raspimon.py lines
212-214: `read_rate = total_read / dt if dt > 0 else 0.0` and likewise
for writes. -/
def diskRates (prev now : List (String × DiskStats)) (dt : Rat) : Rat × Rat :=
  let t := diskDeltas prev now
  (if 0 < dt then (t.1 : Rat) / dt else 0,
   if 0 < dt then (t.2 : Rat) / dt else 0)

/-- Python `s.startswith(pat)`: the first `len(pat)` characters of `s`
equal `pat` (spelled out on the character data so that it is fully
computable). -/
def pyStartswith (s pat : String) : Bool :=
  decide (s.data.take pat.data.length = pat.data)

/-- Device filter `safe_disk_counters_perdisk`, raspimon.py lines
137-151: take the raw psutil per-disk dict (`none` models the
`except`/`or {}` branches, yielding the empty dict) and drop every
device whose identifier starts with "ram" or "loop". -/
def safe_disk_counters_perdisk (raw : Option (List (String × DiskStats))) :
    List (String × DiskStats) :=
  (raw.getD []).filter
    (fun e => !(pyStartswith e.1 "ram" || pyStartswith e.1 "loop"))

/-- A sensor entry of `psutil.sensors_temperatures()`: the source only
reads `entry.current` (`if entry.current:` is Python truthiness, i.e.
nonzero). -/
structure SensorEntry where
  current : Rat

/-- The inner loop of the sensor fallback of `get_pi_temp`,
raspimon.py lines 71-73: return the first entry with truthy
(non-zero) `current`. -/
def firstEntry : List SensorEntry → Option Rat
  | [] => none
  | e :: rest => if e.current ≠ 0 then some e.current else firstEntry rest

/-- The outer loop of the sensor fallback of `get_pi_temp`,
raspimon.py lines 70-73: scan the sensor groups in order. -/
def firstSensor : List (String × List SensorEntry) → Option Rat
  | [] => none
  | (_, entries) :: rest =>
    match firstEntry entries with
    | some v => some v
    | none => firstSensor rest

/-- The platform inputs of one `get_pi_temp` call.  `float_parse`
is the behaviour of Python's `float()` on the stripped command output
(`some v` on success, `none` when it raises, sending the source's
`except` branch to `return None`); `sensors = none` models
`psutil.sensors_temperatures()` raising. -/
structure TempEnv where
  vcgencmd_available : Bool
  measure_temp_out : String
  float_parse : String → Option Rat
  sensors : Option (List (String × List SensorEntry))

/-- Temperature reader `get_pi_temp`, raspimon.py lines 61-76: when
`vcgencmd` is on the PATH, parse
`float(out.replace("temp=", "").replace("'C", ""))`, returning `None`
if that raises; only when `vcgencmd` is absent, fall back to the
sensor enumeration (and to `None` on an empty or failing
enumeration). -/
def get_pi_temp (env : TempEnv) : Option Rat :=
  if env.vcgencmd_available then
    env.float_parse ((env.measure_temp_out.replace "temp=" "").replace "'C" "")
  else
    match env.sensors with
    | none => none
    | some temps => firstSensor temps

/-- The mutable state of `DataStore`, raspimon.py lines 153-167: one
bounded series per metric plus the previous counter snapshots. -/
structure DataStore where
  history_len : Nat
  cpu : List Rat
  temp : List Rat
  net_in : List Rat
  net_out : List Rat
  disk_read : List Rat
  disk_write : List Rat
  gpu : List Rat
  time : List Rat
  prev_net : NetCounters
  prev_disk_perdev : List (String × DiskStats)

/-- `DataStore.__init__`, raspimon.py lines 154-167: every metric
series pre-filled with `0.0`, the time series back-filled at the
nominal period, and the previous counter snapshots captured (the disk
snapshot through `safe_disk_counters_perdisk`). -/
def DataStore.init (history_len : Nat) (t0 : Rat) (net0 : NetCounters)
    (disk_raw0 : Option (List (String × DiskStats))) : DataStore :=
  ⟨history_len,
   List.replicate history_len 0,
   List.replicate history_len 0,
   List.replicate history_len 0,
   List.replicate history_len 0,
   List.replicate history_len 0,
   List.replicate history_len 0,
   List.replicate history_len 0,
   (List.range history_len).map
     (fun i => t0 - ((history_len - i : Nat) : Rat) * REFRESH),
   net0,
   safe_disk_counters_perdisk disk_raw0⟩

/-- The platform inputs of one `DataStore.update` tick.  `t` is
`time.time()`; `cpu = none` models `psutil.cpu_percent` raising
(`except` sets `cpuv = 0.0`); `temp` is the `get_pi_temp()` result
(`None` becomes `0.0`); `net = none` models `psutil.net_io_counters()`
raising (rates `0.0`, previous snapshot kept); `disk_raw` is the raw
psutil per-disk dict fed to `safe_disk_counters_perdisk`; `gpu` is the
`get_gpu_usage()` result (`None` becomes `0.0`). -/
structure Env where
  t : Rat
  cpu : Option Rat
  temp : Option Rat
  net : Option NetCounters
  disk_raw : Option (List (String × DiskStats))
  gpu : Option Rat

/-- One sampling tick, `DataStore.update`, raspimon.py lines 169-228:
append CPU and temperature, compute network rates as
`(now - prev) / dt` with `dt = REFRESH`, compute disk rates from the
per-device deltas of the filtered snapshots with the same `dt`,
replace both previous snapshots, append GPU and the timestamp. -/
def DataStore.update (st : DataStore) (env : Env) : DataStore :=
  let cpuv := match env.cpu with | some v => v | none => 0
  let tmp := match env.temp with | some v => v | none => 0
  let netres : Rat × Rat × NetCounters :=
    match env.net with
    | some now_net =>
      (((now_net.bytes_recv - st.prev_net.bytes_recv : Int) : Rat) / REFRESH,
       ((now_net.bytes_sent - st.prev_net.bytes_sent : Int) : Rat) / REFRESH,
       now_net)
    | none => (0, 0, st.prev_net)
  let now_perdev := safe_disk_counters_perdisk env.disk_raw
  let rates := diskRates st.prev_disk_perdev now_perdev REFRESH
  let gpuv := match env.gpu with | some v => v | none => 0
  ⟨st.history_len,
   dequeAppend st.history_len st.cpu cpuv,
   dequeAppend st.history_len st.temp tmp,
   dequeAppend st.history_len st.net_in netres.1,
   dequeAppend st.history_len st.net_out netres.2.1,
   dequeAppend st.history_len st.disk_read rates.1,
   dequeAppend st.history_len st.disk_write rates.2,
   dequeAppend st.history_len st.gpu gpuv,
   dequeAppend st.history_len st.time env.t,
   netres.2.2,
   now_perdev⟩

/-! Helper lemmas. -/

theorem appendAll_eq (cap : Nat) (vs : List Rat) :
    ∀ xs : List Rat, xs.length ≤ cap →
      appendAll cap xs vs = (xs ++ vs).drop (xs.length + vs.length - cap) := by
  induction vs with
  | nil =>
    intro xs h
    have h0 : xs.length - cap = 0 := Nat.sub_eq_zero_of_le h
    simp [appendAll, h0]
  | cons v tl ih =>
    intro xs h
    have hd : dequeAppend cap xs v = (xs ++ [v]).drop (xs.length + 1 - cap) := by
      simp [dequeAppend]
    have hlen : (dequeAppend cap xs v).length = (xs.length + 1) - (xs.length + 1 - cap) := by
      rw [hd, List.length_drop]
      simp
    have hle : (dequeAppend cap xs v).length ≤ cap := by omega
    show appendAll cap (dequeAppend cap xs v) tl = _
    rw [ih _ hle, hd]
    have hsplit : List.drop (xs.length + 1 - cap) (xs ++ [v]) ++ tl
        = List.drop (xs.length + 1 - cap) ((xs ++ [v]) ++ tl) :=
      (List.drop_append_of_le_length (by simp only [List.length_append,
        List.length_cons, List.length_nil]; omega)).symm
    rw [hsplit, List.drop_drop]
    have hassoc : (xs ++ [v]) ++ tl = xs ++ v :: tl := by simp
    rw [hassoc]
    congr 1
    simp only [List.length_drop, List.length_append, List.length_cons, List.length_nil]
    omega

theorem pyMin_le : ∀ (l : List Rat), ∀ v ∈ l, pyMin l ≤ v
  | [] => by
    intro v hv
    simp at hv
  | [x] => by
    intro v hv
    simp only [List.mem_singleton] at hv
    simp [pyMin, hv]
  | x :: y :: ys => by
    intro v hv
    rcases List.mem_cons.mp hv with h1 | h2
    · simp [pyMin, h1]
    · have := pyMin_le (y :: ys) v h2
      simp only [pyMin]
      exact le_trans (min_le_right _ _) this

theorem le_pyMax : ∀ (l : List Rat), ∀ v ∈ l, v ≤ pyMax l
  | [] => by
    intro v hv
    simp at hv
  | [x] => by
    intro v hv
    simp only [List.mem_singleton] at hv
    simp [pyMax, hv]
  | x :: y :: ys => by
    intro v hv
    rcases List.mem_cons.mp hv with h1 | h2
    · simp [pyMax, h1]
    · have := le_pyMax (y :: ys) v h2
      simp only [pyMax]
      exact le_trans this (le_max_right _ _)

theorem pyRange_lt (stop step : Nat) (hstep : 1 ≤ step) :
    ∀ i ∈ pyRange stop step, i < stop := by
  intro i hi
  simp only [pyRange, List.mem_map, List.mem_range] at hi
  obtain ⟨k, hk, hki⟩ := hi
  have h2 : (k + 1) * step ≤ stop + step - 1 :=
    (Nat.le_div_iff_mul_le (by omega)).mp hk
  rw [Nat.succ_mul] at h2
  subst hki
  generalize k * step = K at h2 ⊢
  omega

theorem pyMin_const : ∀ (l : List Rat) (c : Rat), l ≠ [] → (∀ v ∈ l, v = c) → pyMin l = c
  | [], c => by
    intro h _
    exact absurd rfl h
  | [x], c => by
    intro _ h
    simp [pyMin, h x (by simp)]
  | x :: y :: ys, c => by
    intro _ h
    have h1 : x = c := h x (by simp)
    have h2 : pyMin (y :: ys) = c :=
      pyMin_const (y :: ys) c (by simp) (fun v hv => h v (List.mem_cons_of_mem x hv))
    simp [pyMin, h1, h2]

theorem pyMax_const : ∀ (l : List Rat) (c : Rat), l ≠ [] → (∀ v ∈ l, v = c) → pyMax l = c
  | [], c => by
    intro h _
    exact absurd rfl h
  | [x], c => by
    intro _ h
    simp [pyMax, h x (by simp)]
  | x :: y :: ys, c => by
    intro _ h
    have h1 : x = c := h x (by simp)
    have h2 : pyMax (y :: ys) = c :=
      pyMax_const (y :: ys) c (by simp) (fun v hv => h v (List.mem_cons_of_mem x hv))
    simp [pyMax, h1, h2]

theorem diskDeltas_outer_irrel (prev : List (String × DiskStats)) (d : String) (p : DiskStats) :
    ∀ now : List (String × DiskStats), lookupStats now d = none →
      diskDeltas ((d, p) :: prev) now = diskDeltas prev now := by
  intro now
  induction now with
  | nil =>
    intro _
    rfl
  | cons e rest ih =>
    intro h2
    obtain ⟨dev, s'⟩ := e
    simp only [lookupStats] at h2
    by_cases hde : dev = d
    · rw [if_pos hde] at h2
      simp at h2
    · rw [if_neg hde] at h2
      have hlk : lookupStats ((d, p) :: prev) dev = lookupStats prev dev := by
        have hnd : ¬ (d = dev) := fun hh => hde hh.symm
        simp [lookupStats, hnd]
      simp only [diskDeltas, hlk, ih h2]

theorem lookup_filter_none (pred : String × DiskStats → Bool) (d : String)
    (hd : ∀ s : DiskStats, pred (d, s) = false) :
    ∀ raw : List (String × DiskStats), lookupStats (raw.filter pred) d = none := by
  intro raw
  induction raw with
  | nil => rfl
  | cons e rest ih =>
    obtain ⟨dev, s'⟩ := e
    by_cases hdev : pred (dev, s') = true
    · rw [List.filter_cons_of_pos hdev]
      have hne : ¬ (dev = d) := by
        intro hh
        subst hh
        rw [hd s'] at hdev
        cases hdev
      simp only [lookupStats, if_neg hne]
      exact ih
    · rw [List.filter_cons_of_neg hdev]
      exact ih

/-! Claim theorems. -/

/-- C1: for every capacity `C` and every sequence of `N ≥ C` values appended
to a metric series of the bounded history store, the series then holds
exactly the last `C` appended values in append order, and its length is
exactly `C` after every operation, including immediately after
initialization, which pre-fills each series with `0.0`
(`DataStore.__init__` and the deque-with-maxlen append semantics). -/
theorem history_ring (C : Nat) (vs : List Rat) (h : C ≤ vs.length) :
    appendAll C (seriesInit C) vs = vs.drop (vs.length - C)
    ∧ ∀ i, i ≤ vs.length → (appendAll C (seriesInit C) (vs.take i)).length = C := by
  constructor
  · rw [appendAll_eq C vs (seriesInit C) (by simp [seriesInit])]
    have h1 : (seriesInit C).length + vs.length - C = (seriesInit C).length + (vs.length - C) := by
      simp only [seriesInit, List.length_replicate]
      omega
    rw [h1, List.drop_append]
  · intro i hi
    rw [appendAll_eq C (vs.take i) (seriesInit C) (by simp [seriesInit])]
    simp only [List.length_drop, List.length_append, List.length_take,
      seriesInit, List.length_replicate]
    omega

/-- Witness for C1: capacity 2, three appended values, snapshot is the
last two in order. -/
theorem history_ring_witness :
    2 ≤ ([3, 4, 5] : List Rat).length ∧ appendAll 2 (seriesInit 2) [3, 4, 5] = [4, 5] := by
  refine ⟨by decide, ?_⟩
  have h := (history_ring 2 [3, 4, 5] (by decide)).1
  simpa using h

/-- C3: for every sample sequence (empty or not) and every width `W ≥ 1`,
the string returned by `sparkline` has length exactly `W`. -/
theorem sparkline_length (values : List Rat) (width : Nat) (h : 1 ≤ width) :
    (sparkline values width).length = width := by
  have hw0 : ¬ (width = 0) := by omega
  by_cases hv : values = []
  · simp [sparkline, if_neg hw0, hv]
  · simp only [sparkline, if_neg hw0, if_neg hv]
    by_cases hlt : width < (rawGlyphs values width).length
    · rw [if_pos hlt]
      simp only [List.length_append, List.length_replicate, List.length_drop]
      omega
    · rw [if_neg hlt]
      simp only [List.length_append, List.length_replicate]
      omega

/-- Witness for C3: two samples rendered at width 4. -/
theorem sparkline_length_witness :
    1 ≤ 4 ∧ (sparkline [1, 2] 4).length = 4 :=
  ⟨by decide, sparkline_length [1, 2] 4 (by decide)⟩

/-- C4 counterexample: the constant one-sample series `[5.0]` at width 2
renders as a space followed by one lowest glyph, not as 2 copies of the
lowest glyph, because the rjust padding uses spaces when fewer than
`width` glyphs are produced. -/
theorem sparkline_const_pad_cex :
    sparkline [5] 2 ≠ List.replicate 2 '▁' ∧ sparkline [5] 2 = [' ', '▁'] := by
  have h : sparkline [5] 2 = [' ', '▁'] := by
    norm_num [sparkline, rawGlyphs, pyRange, sparkRng, pyMin, pyMax, sparkIdx,
      pyInt, SPARK_CHARS, List.replicate, List.range_succ]
  refine ⟨?_, h⟩
  rw [h]
  decide

/-- C4 (amended): for every non-empty constant sample sequence whose
length is at least `W`, and every width `W ≥ 1`, `sparkline` returns
exactly `W` copies of the lowest-intensity glyph (the first character
of `SPARK_CHARS`), without any division-by-zero (the flat-series range
is forced to 1).  The length restriction is exactly what the
counterexample forces: a shorter constant sequence is padded with
spaces rather than filled with the lowest glyph. -/
theorem sparkline_const (c : Rat) (n width : Nat) (h1 : 1 ≤ width) (h2 : width ≤ n) :
    sparkline (List.replicate n c) width = List.replicate width '▁' := by
  have hn1 : 1 ≤ n := le_trans h1 h2
  set values := List.replicate n c with hvalues
  have hvne : values ≠ [] := by
    simp [hvalues]
    omega
  have hconst : ∀ v ∈ values, v = c := by
    intro v hv
    exact List.eq_of_mem_replicate hv
  have hmn : pyMin values = c := pyMin_const values c hvne hconst
  have hmx : pyMax values = c := pyMax_const values c hvne hconst
  have hrng : sparkRng values = 1 := by
    simp [sparkRng, hmn, hmx]
  have hlenv : values.length = n := by simp [hvalues]
  have hstep1 : 1 ≤ n / width := (Nat.one_le_div_iff (by omega)).mpr h2
  have hstepeq : max 1 (values.length / width) = n / width := by
    rw [hlenv]
    omega
  have hglyph : ∀ i ∈ pyRange values.length (n / width),
      SPARK_CHARS.getD (sparkIdx (pyMin values) (sparkRng values) (values.getD i 0)).toNat ' '
        = '▁' := by
    intro i hi
    have hilt : i < n := by
      have := pyRange_lt values.length (n / width) hstep1 i hi
      omega
    have hgetD : values.getD i 0 = c := by
      rw [hvalues]
      simp [List.getD, hilt]
    rw [hgetD, hmn, hrng]
    have : sparkIdx c 1 c = 0 := by
      simp [sparkIdx, pyInt]
    rw [this]
    rfl
  have hraw : rawGlyphs values width
      = List.replicate (rawGlyphs values width).length '▁' := by
    apply List.eq_replicate_of_mem
    intro b hb
    simp only [rawGlyphs, hstepeq, List.mem_map] at hb
    obtain ⟨i, hi, hbi⟩ := hb
    rw [← hbi]
    exact hglyph i hi
  have hrawlen : (rawGlyphs values width).length = (n + n / width - 1) / (n / width) := by
    simp [rawGlyphs, hstepeq, pyRange, hlenv]
    congr 1 <;> omega
  have hge : width ≤ (rawGlyphs values width).length := by
    rw [hrawlen]
    have hwle : width ≤ n / (n / width) := by
      rw [Nat.le_div_iff_mul_le (by omega)]
      calc width * (n / width) = n / width * width := by ring
        _ ≤ n := Nat.div_mul_le_self n width
    have hmono : n / (n / width) ≤ (n + n / width - 1) / (n / width) :=
      Nat.div_le_div_right (by omega)
    omega
  have hw0 : ¬ (width = 0) := by omega
  simp only [sparkline, if_neg hw0, if_neg hvne]
  obtain ⟨g, hg, hgeg⟩ : ∃ g, rawGlyphs values width = List.replicate g '▁' ∧ width ≤ g :=
    ⟨(rawGlyphs values width).length, hraw, hge⟩
  rw [hg]
  simp only [List.length_replicate]
  by_cases hlt : width < g
  · rw [if_pos hlt, List.drop_replicate]
    have h3 : g - (g - width) = width := by omega
    rw [h3]
    simp
  · rw [if_neg hlt]
    have heq : g = width := by omega
    rw [heq]
    simp

/-- Witness for C4 (amended): three constant samples at width 2 give two
lowest glyphs. -/
theorem sparkline_const_witness :
    (1 ≤ 2 ∧ 2 ≤ 3) ∧ sparkline (List.replicate 3 5) 2 = List.replicate 2 '▁' :=
  ⟨⟨by decide, by decide⟩, sparkline_const 5 3 2 (by decide) (by decide)⟩

/-- C9: `sparkline` keeps exactly the last `W` characters when the
downsampling loop produced more than `W` glyphs, and left-pads with
spaces to exactly `W` characters when it produced fewer; both policies
(and the untouched `g = W` case) are captured by this single closed
form over the raw glyph run. -/
theorem sparkline_trim_pad (values : List Rat) (width : Nat) :
    sparkline values width =
      List.replicate (width - min width (rawGlyphs values width).length) ' '
        ++ (rawGlyphs values width).drop ((rawGlyphs values width).length - width) := by
  by_cases hw0 : width = 0
  · subst hw0
    simp [sparkline, List.drop_length]
  · by_cases hv : values = []
    · subst hv
      have hraw : rawGlyphs [] width = [] := by
        simp [rawGlyphs, pyRange]
      simp [sparkline, if_neg hw0, hraw]
    · simp only [sparkline, if_neg hw0, if_neg hv]
      by_cases hlt : width < (rawGlyphs values width).length
      · rw [if_pos hlt]
        have hcnt : width -
            (List.drop ((rawGlyphs values width).length - width) (rawGlyphs values width)).length
            = width - min width (rawGlyphs values width).length := by
          rw [List.length_drop]
          omega
        rw [hcnt]
      · rw [if_neg hlt]
        have hLe : (rawGlyphs values width).length ≤ width := by omega
        rw [Nat.sub_eq_zero_of_le hLe, List.drop_zero, Nat.min_eq_right hLe]

/-- C10: for every non-empty sample sequence, every glyph index computed
by `sparkline` — `int(((v - mn) / rng) * (len(SPARK_CHARS) - 1))` with
`rng = mx - mn`, or `1.0` when `mx = mn` — lies within
`[0, len(SPARK_CHARS) - 1]`, so indexing the glyph ramp never goes out
of bounds. -/
theorem sparkline_idx_in_bounds (values : List Rat) (v : Rat) (hv : v ∈ values) :
    0 ≤ sparkIdx (pyMin values) (sparkRng values) v ∧
    sparkIdx (pyMin values) (sparkRng values) v < (SPARK_CHARS.length : Int) := by
  have hmn : pyMin values ≤ v := pyMin_le values v hv
  have hmx : v ≤ pyMax values := le_pyMax values v hv
  have hlen : ((SPARK_CHARS.length - 1 : Nat) : Rat) = 7 := by norm_num [SPARK_CHARS]
  have hlenz : (SPARK_CHARS.length : Int) = 8 := by norm_num [SPARK_CHARS]
  by_cases heq : pyMax values = pyMin values
  · have hv0 : v = pyMin values := le_antisymm (heq ▸ hmx) hmn
    have : sparkIdx (pyMin values) (sparkRng values) v = 0 := by
      simp [sparkIdx, sparkRng, heq, hv0, pyInt]
    rw [this, hlenz]
    constructor
    · exact le_refl 0
    · norm_num
  · have hrng : sparkRng values = pyMax values - pyMin values := by
      simp [sparkRng, heq]
    have hpos : 0 < sparkRng values := by
      rw [hrng]
      have : pyMin values ≤ pyMax values := le_trans hmn hmx
      rcases lt_or_eq_of_le this with h | h
      · linarith
      · exact absurd h.symm heq
    have hq0 : 0 ≤ (v - pyMin values) / sparkRng values :=
      div_nonneg (by linarith) (le_of_lt hpos)
    have hq1 : (v - pyMin values) / sparkRng values ≤ 1 := by
      rw [div_le_one hpos, hrng]
      linarith
    have hx0 : 0 ≤ (v - pyMin values) / sparkRng values * ((SPARK_CHARS.length - 1 : Nat) : Rat) := by
      rw [hlen]
      positivity
    have hx7 : (v - pyMin values) / sparkRng values * ((SPARK_CHARS.length - 1 : Nat) : Rat) ≤ 7 := by
      rw [hlen]
      nlinarith
    constructor
    · simp only [sparkIdx, pyInt, if_pos hx0]
      exact Int.le_floor.mpr (by exact_mod_cast hx0)
    · simp only [sparkIdx, pyInt, if_pos hx0, hlenz]
      have : ⌊(v - pyMin values) / sparkRng values * ((SPARK_CHARS.length - 1 : Nat) : Rat)⌋ ≤ 7 := by
        have := Int.floor_le_floor hx7
        simpa using this
      omega

/-- Witness for C10: the one-sample series `[3]` and its member `3`. -/
theorem sparkline_idx_in_bounds_witness :
    ((3 : Rat) ∈ ([3] : List Rat)) ∧
    (0 ≤ sparkIdx (pyMin [3]) (sparkRng [3]) 3 ∧
     sparkIdx (pyMin [3]) (sparkRng [3]) 3 < (SPARK_CHARS.length : Int)) :=
  ⟨by simp, sparkline_idx_in_bounds [3] 3 (by simp)⟩

/-- C6: the aggregate disk delta of a tick sums only over devices present
in both the previous and the current snapshot: a device present only in
the current snapshot contributes zero to that tick; once the previous
snapshot contains it, its deltas are counted normally; and a device
absent from the current snapshot is dropped (its stale previous entry
changes nothing). -/
theorem disk_churn (prev now now2 : List (String × DiskStats)) (d : String) (s p : DiskStats)
    (h : lookupStats prev d = none) (h2 : lookupStats now2 d = none) :
    diskDeltas prev ((d, s) :: now) = diskDeltas prev now
    ∧ diskDeltas ((d, p) :: prev) ((d, s) :: now) =
        ((diskDeltas ((d, p) :: prev) now).1 + (s.read_bytes - p.read_bytes),
         (diskDeltas ((d, p) :: prev) now).2 + (s.write_bytes - p.write_bytes))
    ∧ diskDeltas ((d, p) :: prev) now2 = diskDeltas prev now2 := by
  refine ⟨?_, ?_, ?_⟩
  · simp [diskDeltas, h]
  · simp [diskDeltas, lookupStats]
  · exact diskDeltas_outer_irrel prev d p now2 h2

/-- Witness for C6: device "sdb1" appears only in the current snapshot,
then in both. -/
theorem disk_churn_witness :
    (lookupStats [("sda", DiskStats.mk 0 0)] "sdb1" = none
      ∧ lookupStats [("sda", DiskStats.mk 9 10)] "sdb1" = none)
    ∧ (diskDeltas [("sda", DiskStats.mk 0 0)] [("sdb1", DiskStats.mk 10 20), ("sda", DiskStats.mk 6 7)]
        = diskDeltas [("sda", DiskStats.mk 0 0)] [("sda", DiskStats.mk 6 7)]
      ∧ diskDeltas [("sdb1", DiskStats.mk 3 4), ("sda", DiskStats.mk 0 0)]
          [("sdb1", DiskStats.mk 10 20), ("sda", DiskStats.mk 6 7)] =
        ((diskDeltas [("sdb1", DiskStats.mk 3 4), ("sda", DiskStats.mk 0 0)]
            [("sda", DiskStats.mk 6 7)]).1 + ((DiskStats.mk 10 20).read_bytes - (DiskStats.mk 3 4).read_bytes),
         (diskDeltas [("sdb1", DiskStats.mk 3 4), ("sda", DiskStats.mk 0 0)]
            [("sda", DiskStats.mk 6 7)]).2 + ((DiskStats.mk 10 20).write_bytes - (DiskStats.mk 3 4).write_bytes))
      ∧ diskDeltas [("sdb1", DiskStats.mk 3 4), ("sda", DiskStats.mk 0 0)] [("sda", DiskStats.mk 9 10)]
        = diskDeltas [("sda", DiskStats.mk 0 0)] [("sda", DiskStats.mk 9 10)]) :=
  ⟨⟨by decide, by decide⟩,
   disk_churn [("sda", DiskStats.mk 0 0)] [("sda", DiskStats.mk 6 7)]
     [("sda", DiskStats.mk 9 10)] "sdb1" (DiskStats.mk 10 20) (DiskStats.mk 3 4)
     (by decide) (by decide)⟩

/-- C7: device identifiers beginning with "ram" or "loop" are excluded
entirely by the disk counter source: prepending such a device to the
raw counters changes nothing downstream (so it contributes to neither
the per-device mapping nor any aggregate computed from it), and the
filtered mapping never contains such an identifier. -/
theorem device_filter (raw : List (String × DiskStats)) (d : String) (s : DiskStats)
    (h : pyStartswith d "ram" = true ∨ pyStartswith d "loop" = true) :
    safe_disk_counters_perdisk (some ((d, s) :: raw)) = safe_disk_counters_perdisk (some raw)
    ∧ lookupStats (safe_disk_counters_perdisk (some raw)) d = none := by
  have hpred : (!(pyStartswith d "ram" || pyStartswith d "loop")) = false := by
    rcases h with h | h <;> simp [h]
  constructor
  · simp only [safe_disk_counters_perdisk, Option.getD]
    exact List.filter_cons_of_neg (by simp [hpred])
  · simp only [safe_disk_counters_perdisk, Option.getD]
    exact lookup_filter_none _ d (fun _ => hpred) raw

/-- Witness for C7: "loop2" prepended to a raw snapshot that already
contains "ram0". -/
theorem device_filter_witness :
    (pyStartswith "loop2" "loop" = true)
    ∧ (safe_disk_counters_perdisk
        (some [("loop2", DiskStats.mk 5 6), ("ram0", DiskStats.mk 1 2), ("sda", DiskStats.mk 3 4)])
      = safe_disk_counters_perdisk (some [("ram0", DiskStats.mk 1 2), ("sda", DiskStats.mk 3 4)])
      ∧ lookupStats (safe_disk_counters_perdisk
          (some [("ram0", DiskStats.mk 1 2), ("sda", DiskStats.mk 3 4)])) "loop2" = none) :=
  ⟨by decide,
   device_filter [("ram0", DiskStats.mk 1 2), ("sda", DiskStats.mk 3 4)]
     "loop2" (DiskStats.mk 5 6) (Or.inr (by decide))⟩

/-- C5 counterexample: with the vendor command present but its output
unparseable, `get_pi_temp` returns `None` directly; it does not fall
back to the sensor enumeration even though that enumeration would have
produced a non-zero reading (45). -/
theorem get_pi_temp_no_fallback_cex :
    get_pi_temp ⟨true, "garbage", fun _ => none, some [("cpu_thermal", [⟨45⟩])]⟩ = none
    ∧ firstSensor [("cpu_thermal", [⟨45⟩])] = some 45 := by
  constructor
  · rfl
  · norm_num [firstSensor, firstEntry]

/-- C5 (amended): only when the vendor command is absent from the PATH
does the temperature reader fall back to the generic sensor enumeration,
returning the first entry with a non-zero current reading and `None`
when that yields nothing; when the vendor command is present but its
output fails to parse as `temp=<float>'C`, the reader returns `None`
directly without falling back. -/
theorem get_pi_temp_fallback (envA envP : TempEnv) (temps : List (String × List SensorEntry))
    (hA : envA.vcgencmd_available = false)
    (hAs : envA.sensors = some temps)
    (hP : envP.vcgencmd_available = true)
    (hparse : envP.float_parse
        ((envP.measure_temp_out.replace "temp=" "").replace "'C" "") = none) :
    get_pi_temp envA = firstSensor temps ∧ get_pi_temp envP = none := by
  constructor
  · simp [get_pi_temp, hA, hAs]
  · simp [get_pi_temp, hP, hparse]

/-- Witness for C5 (amended): a sensor list whose first entry reads zero
and whose second reads 42, with the vendor command absent; and an
unparseable vendor output with the command present. -/
theorem get_pi_temp_fallback_witness :
    get_pi_temp ⟨false, "", fun _ => none, some [("coretemp", [⟨0⟩, ⟨42⟩])]⟩ = some 42
    ∧ get_pi_temp ⟨true, "bogus", fun _ => none, none⟩ = none := by
  have h := get_pi_temp_fallback
    ⟨false, "", fun _ => none, some [("coretemp", [⟨0⟩, ⟨42⟩])]⟩
    ⟨true, "bogus", fun _ => none, none⟩
    [("coretemp", [⟨0⟩, ⟨42⟩])] rfl rfl rfl rfl
  refine ⟨h.1.trans ?_, h.2⟩
  norm_num [firstSensor, firstEntry]

/-- C2: the code does not clamp negative counter deltas.  With previous
read counter 1000 and current read counter 200 (a counter reset), the
tick's read rate is `(200 - 1000) / 0.4 = -2000` bytes/sec — negative,
where the claim (and the spec's stated edge-case policy) requires 0.
This theorem evaluates the embedded `DataStore.update` at that failing
input. -/
theorem update_counter_reset_negative :
    ((DataStore.mk 3 [] [] [] [] [] [] [] [] ⟨0, 0⟩ [("mmcblk0", ⟨1000, 500⟩)]).update
        ⟨1, some 0, some 0, none, some [("mmcblk0", ⟨200, 500⟩)], some 0⟩).disk_read
      = [-2000]
    ∧ (-2000 : Rat) < 0 := by
  have hfilter : safe_disk_counters_perdisk (some [("mmcblk0", DiskStats.mk 200 500)])
      = [("mmcblk0", DiskStats.mk 200 500)] := by decide
  have hdelta : diskDeltas [("mmcblk0", DiskStats.mk 1000 500)]
      [("mmcblk0", DiskStats.mk 200 500)] = (-800, 0) := by decide
  have hR : (0 : Rat) < REFRESH := by norm_num [REFRESH]
  constructor
  · simp only [DataStore.update, hfilter, diskRates, hdelta, if_pos hR]
    norm_num [dequeAppend, REFRESH]
  · norm_num

/-- C8: each computed rate is `(current - previous) / dt` where `dt` is
the configured nominal period `REFRESH`, not a measured inter-call
interval — the appended rates are the same for every value of the
timestamp input `t`; and the generic rate computation at
previous=(read=1000, write=500), current=(read=1500, write=500),
`dt = 2` yields read rate 250 bytes/sec and write rate 0. -/
theorem update_rates_nominal_dt (st : DataStore) (t c tm g : Rat)
    (nn : NetCounters) (d : Option (List (String × DiskStats))) :
    (st.update ⟨t, some c, some tm, some nn, d, some g⟩).disk_read =
        dequeAppend st.history_len st.disk_read
          (diskRates st.prev_disk_perdev (safe_disk_counters_perdisk d) REFRESH).1
    ∧ (st.update ⟨t, some c, some tm, some nn, d, some g⟩).disk_write =
        dequeAppend st.history_len st.disk_write
          (diskRates st.prev_disk_perdev (safe_disk_counters_perdisk d) REFRESH).2
    ∧ (st.update ⟨t, some c, some tm, some nn, d, some g⟩).net_in =
        dequeAppend st.history_len st.net_in
          (((nn.bytes_recv - st.prev_net.bytes_recv : Int) : Rat) / REFRESH)
    ∧ (st.update ⟨t, some c, some tm, some nn, d, some g⟩).net_out =
        dequeAppend st.history_len st.net_out
          (((nn.bytes_sent - st.prev_net.bytes_sent : Int) : Rat) / REFRESH)
    ∧ diskRates [("sda", ⟨1000, 500⟩)] [("sda", ⟨1500, 500⟩)] 2 = (250, 0) := by
  have hdelta : diskDeltas [("sda", DiskStats.mk 1000 500)]
      [("sda", DiskStats.mk 1500 500)] = (500, 0) := by decide
  refine ⟨rfl, rfl, rfl, rfl, ?_⟩
  norm_num [diskRates, hdelta]

end Raspimon
